import Mathlib

/-!
Verification of the post-loading pipeline of `src/Games/GetDinoFood/_data/Posts.js`.

The script fetches a JSON or XML document, parses it into a list of post
values (`parseJsonData` / `parseXmlData`), collects the set of all tags
(`fetchData`, lines 112-115), and recomputes the displayed list by filtering
on the current tag and sorting by date (`updatePosts`, lines 187-203).

The embedding models JavaScript runtime values (`JsValue`), fallible
property access (reading a property of `null`/`undefined` throws a
`TypeError`), the platform `Date` constructor restricted to ISO
`YYYY-MM-DD` strings, the ECMAScript `SortCompare` rule (a comparator
result of `NaN` is treated as `+0`), a stable sort standing for
`Array.prototype.sort` (stable per ES2019), and a small attribute-free XML
document model standing for `DOMParser` (which never throws: a malformed
document becomes a `parsererror` document with no `Post` elements).
-/

/-- A JavaScript runtime value, as produced by `JSON.parse` and by the
XML parsing code: `undefined` is the result of reading an absent property. -/
inductive JsValue where
  | null : JsValue
  | undefined : JsValue
  | bool : Bool → JsValue
  | num : Int → JsValue
  | str : String → JsValue
  | arr : List JsValue → JsValue
  | obj : List (String × JsValue) → JsValue
deriving Repr

mutual

/-- Structural value equality of JavaScript values (SameValueZero on the
shapes `JSON.parse` can produce). -/
def beqJs : JsValue → JsValue → Bool
  | .null, .null => true
  | .undefined, .undefined => true
  | .bool x, .bool y => x == y
  | .num x, .num y => x == y
  | .str x, .str y => x == y
  | .arr xs, .arr ys => beqJsList xs ys
  | .obj fs, .obj gs => beqJsFields fs gs
  | _, _ => false

/-- `beqJs` on lists of values. -/
def beqJsList : List JsValue → List JsValue → Bool
  | [], [] => true
  | x :: xs, y :: ys => beqJs x y && beqJsList xs ys
  | _, _ => false

/-- `beqJs` on field lists. -/
def beqJsFields : List (String × JsValue) → List (String × JsValue) → Bool
  | [], [] => true
  | (k, v) :: fs, (k', v') :: gs => k == k' && beqJs v v' && beqJsFields fs gs
  | _, _ => false

end

instance : BEq JsValue := ⟨beqJs⟩

mutual

theorem beqJs_iff : ∀ a b : JsValue, beqJs a b = true ↔ a = b
  | .null, b => by cases b <;> simp [beqJs]
  | .undefined, b => by cases b <;> simp [beqJs]
  | .bool x, b => by cases b <;> simp [beqJs]
  | .num x, b => by cases b <;> simp [beqJs]
  | .str x, b => by cases b <;> simp [beqJs]
  | .arr xs, .null => by simp [beqJs]
  | .arr xs, .undefined => by simp [beqJs]
  | .arr xs, .bool y => by simp [beqJs]
  | .arr xs, .num y => by simp [beqJs]
  | .arr xs, .str y => by simp [beqJs]
  | .arr xs, .arr ys => by simp [beqJs, beqJsList_iff xs ys]
  | .arr xs, .obj gs => by simp [beqJs]
  | .obj fs, .null => by simp [beqJs]
  | .obj fs, .undefined => by simp [beqJs]
  | .obj fs, .bool y => by simp [beqJs]
  | .obj fs, .num y => by simp [beqJs]
  | .obj fs, .str y => by simp [beqJs]
  | .obj fs, .arr ys => by simp [beqJs]
  | .obj fs, .obj gs => by simp [beqJs, beqJsFields_iff fs gs]

theorem beqJsList_iff : ∀ xs ys : List JsValue, beqJsList xs ys = true ↔ xs = ys
  | [], [] => by simp [beqJsList]
  | [], _ :: _ => by simp [beqJsList]
  | _ :: _, [] => by simp [beqJsList]
  | x :: xs, y :: ys => by
      simp [beqJsList, beqJs_iff x y, beqJsList_iff xs ys]

theorem beqJsFields_iff : ∀ fs gs : List (String × JsValue), beqJsFields fs gs = true ↔ fs = gs
  | [], [] => by simp [beqJsFields]
  | [], _ :: _ => by simp [beqJsFields]
  | _ :: _, [] => by simp [beqJsFields]
  | (k, v) :: fs, (k', v') :: gs => by
      simp [beqJsFields, beqJs_iff v v', beqJsFields_iff fs gs, and_assoc]

end

instance : LawfulBEq JsValue where
  eq_of_beq h := (beqJs_iff _ _).mp h
  rfl := (beqJs_iff _ _).mpr rfl

instance : DecidableEq JsValue := fun a b => decidable_of_iff _ (beqJs_iff a b)

/-- The only runtime error the modelled code paths can raise: a `TypeError`
from reading a property of `null`/`undefined` or calling a method that the
receiver does not have. -/
inductive JsError where
  | typeError : JsError
deriving Repr, DecidableEq

@[simp] theorem except_ok_bind {α β : Type} (a : α) (f : α → Except JsError β) :
    (Except.ok a >>= f : Except JsError β) = f a := rfl

@[simp] theorem except_ok_map {α β : Type} (f : α → β) (a : α) :
    (f <$> (Except.ok a : Except JsError α)) = Except.ok (f a) := rfl

@[simp] theorem except_pure_eq_ok {α : Type} (a : α) :
    (pure a : Except JsError α) = Except.ok a := rfl

@[simp] theorem except_error_bind {α β : Type} (e : JsError) (f : α → Except JsError β) :
    (Except.error e >>= f : Except JsError β) = Except.error e := rfl

/-- First-match association-list lookup; JavaScript objects produced by
`JSON.parse` and by `parseXmlData` have unique keys, an absent key reads as
`undefined`. -/
def lookupField : List (String × JsValue) → String → JsValue
  | [], _ => .undefined
  | (k', v) :: fs, k => if k' == k then v else lookupField fs k

/-- `p[k]` in JavaScript: reading a property of `null` or `undefined`
throws a `TypeError`; reading an absent property of any other value
yields `undefined`. -/
def getProp : JsValue → String → Except JsError JsValue
  | .null, _ => .error .typeError
  | .undefined, _ => .error .typeError
  | .obj fs, k => .ok (lookupField fs k)
  | _, _ => .ok .undefined

/-- Total variant of `getProp`, reading `undefined` where `getProp` throws;
used only to state pure facts, and shown to agree with `getProp` on
non-`null`/non-`undefined` receivers. -/
def getPropD (p : JsValue) (k : String) : JsValue :=
  match getProp p k with
  | .ok v => v
  | .error _ => .undefined

/-- Property access on `p` succeeds (i.e. `p` is neither `null` nor
`undefined`). -/
def canRead : JsValue → Bool
  | .null => false
  | .undefined => false
  | _ => true

theorem getProp_eq_of_canRead {p : JsValue} (h : canRead p = true) (k : String) :
    getProp p k = .ok (getPropD p k) := by
  cases p <;> simp_all [canRead, getProp, getPropD]

/-- Substring test, modelling `String.prototype.includes`. -/
def strHasSub (s sub : String) : Bool :=
  (List.range (s.length + 1)).any fun i => sub.isPrefixOf (s.drop i)

/-- `receiver.includes(needle)`: arrays test element membership
(SameValueZero, i.e. value equality here), strings test for a substring,
every other receiver lacks the method and throws a `TypeError`. -/
def jsIncludes : JsValue → JsValue → Except JsError Bool
  | .arr xs, needle => .ok (xs.any fun x => x == needle)
  | .str s, .str sub => .ok (strHasSub s sub)
  | .str _, _ => .ok false
  | _, _ => .error .typeError

/-- `Array.prototype.filter` over the predicate
`post => post.tags.includes(tag)` from `updatePosts` line 192: the
predicate runs on each element in order and its first `TypeError` aborts
the whole call. -/
def filterByTag : List JsValue → String → Except JsError (List JsValue)
  | [], _ => .ok []
  | p :: ps, tag => do
      let tv ← getProp p "tags"
      let b ← jsIncludes tv (.str tag)
      let rest ← filterByTag ps tag
      pure (if b then p :: rest else rest)

/-- The filter step of `updatePosts` (lines 188-193): the reserved value
`"all"` short-circuits to a copy of the whole corpus before any tag
membership test. -/
def viewFilter (posts : List JsValue) (tag : String) : Except JsError (List JsValue) :=
  if tag == "all" then .ok posts
  else filterByTag posts tag

/-- Model of `Date.parse` restricted to the ISO `YYYY-MM-DD` format: the
encoding `y*10000 + m*100 + d` is strictly monotone in the calendar date,
so comparisons agree with the real millisecond timestamps; every other
string is an invalid date (`NaN`). -/
def parseIsoDate (s : String) : Option Int :=
  match s.data with
  | [a, b, c, d, '-', e, f, '-', g, h] =>
      if a.isDigit && b.isDigit && c.isDigit && d.isDigit
          && e.isDigit && f.isDigit && g.isDigit && h.isDigit then
        let y := ((a.toNat - 48) * 1000 + (b.toNat - 48) * 100
                  + (c.toNat - 48) * 10 + (d.toNat - 48) : Nat)
        let m := ((e.toNat - 48) * 10 + (f.toNat - 48) : Nat)
        let dd := ((g.toNat - 48) * 10 + (h.toNat - 48) : Nat)
        if 1 ≤ m && m ≤ 12 && 1 ≤ dd && dd ≤ 31 then
          some ((y * 10000 + m * 100 + dd : Nat) : Int)
        else none
      else none
  | _ => none

/-- `new Date(v).valueOf()` as an `Option Int` (`none` is the invalid-date
`NaN`): strings go through the date parser, numbers are timestamps,
`null`/booleans coerce through `ToNumber`, `undefined` and
objects/arrays are invalid in this model. -/
def toDateJs : JsValue → Option Int
  | .str s => parseIsoDate s
  | .num n => some n
  | .null => some 0
  | .bool b => some (if b then 1 else 0)
  | .undefined => none
  | .arr _ => none
  | .obj _ => none

/-- The date value of a post, `new Date(post.date)` (total form). -/
def postDate (p : JsValue) : Option Int :=
  toDateJs (getPropD p "date")

/-- ECMAScript `SortCompare` applied to a date subtraction: `NaN` (either
operand an invalid date) is mapped to `+0`. -/
def scomp : Option Int → Option Int → Int
  | some x, some y => x - y
  | _, _ => 0

/-- The comparator passed to `sort` in `updatePosts` (lines 197/199), with
the property reads made explicit: ascending is
`new Date(a.date) - new Date(b.date)`, descending flips the operands. -/
def dateCmpE (asc : Bool) (a b : JsValue) : Except JsError Int := do
  let av ← getProp a "date"
  let bv ← getProp b "date"
  pure (if asc then scomp (toDateJs av) (toDateJs bv)
        else scomp (toDateJs bv) (toDateJs av))

/-- Pure form of the comparator, agreeing with `dateCmpE` on readable
receivers. -/
def dateCmpP (asc : Bool) (a b : JsValue) : Int :=
  if asc then scomp (postDate a) (postDate b)
  else scomp (postDate b) (postDate a)

theorem dateCmpE_eq_of_canRead {a b : JsValue} (ha : canRead a = true)
    (hb : canRead b = true) (asc : Bool) :
    dateCmpE asc a b = .ok (dateCmpP asc a b) := by
  simp [dateCmpE, getProp_eq_of_canRead ha, getProp_eq_of_canRead hb,
    dateCmpP, postDate]

section StableSort

variable {α : Type} (cmp : α → α → Int)

/-- Stable insertion: `x` is placed before the first element it does not
compare strictly greater than. Together with `insSort` this models the
(ES2019-mandated stable) `Array.prototype.sort`. -/
def insCmp (x : α) : List α → List α
  | [] => [x]
  | y :: ys => if cmp x y ≤ 0 then x :: y :: ys else y :: insCmp x ys

/-- Stable sort by a JavaScript comparator (see `insCmp`). -/
def insSort : List α → List α
  | [] => []
  | x :: xs => insCmp cmp x (insSort xs)

theorem insCmp_split (x : α) (l : List α) :
    ∃ l₁ l₂, l = l₁ ++ l₂ ∧ insCmp cmp x l = l₁ ++ x :: l₂ := by
  induction l with
  | nil => exact ⟨[], [], rfl, rfl⟩
  | cons y ys ih =>
      by_cases h : cmp x y ≤ 0
      · exact ⟨[], y :: ys, rfl, by simp [insCmp, h]⟩
      · obtain ⟨l₁, l₂, hsplit, hins⟩ := ih
        exact ⟨y :: l₁, l₂, by simp [hsplit], by simp [insCmp, h, hins]⟩

theorem mem_insCmp {x a : α} {l : List α} :
    a ∈ insCmp cmp x l ↔ a = x ∨ a ∈ l := by
  obtain ⟨l₁, l₂, hsplit, hins⟩ := insCmp_split cmp x l
  subst hsplit
  simp [hins]
  tauto

theorem mem_insSort {a : α} {l : List α} :
    a ∈ insSort cmp l ↔ a ∈ l := by
  induction l with
  | nil => simp [insSort]
  | cons x xs ih => simp [insSort, mem_insCmp, ih]

/-- Anything already a (two-element) sublist survives an insertion. -/
theorem sublist_insCmp {a b : α} {l : List α} (x : α)
    (h : [a, b].Sublist l) : [a, b].Sublist (insCmp cmp x l) := by
  obtain ⟨l₁, l₂, hsplit, hins⟩ := insCmp_split cmp x l
  subst hsplit
  rw [hins]
  exact h.trans (List.Sublist.append_left (List.sublist_cons_self x l₂) l₁)

/-- The inserted element lands before anything it does not compare
strictly greater than. -/
theorem sublist_insCmp_self {x y : α} {l : List α} (hcmp : cmp x y ≤ 0)
    (hy : y ∈ l) : [x, y].Sublist (insCmp cmp x l) := by
  induction l with
  | nil => cases hy
  | cons z zs ih =>
      by_cases h : cmp x z ≤ 0
      · simp only [insCmp, if_pos h]
        rcases List.mem_cons.mp hy with hz | hz
        · subst hz
          exact .cons₂ x (.cons₂ y (List.nil_sublist zs))
        · exact .cons₂ x (List.singleton_sublist.mpr (List.mem_cons_of_mem z hz))
      · simp only [insCmp, if_neg h]
        rcases List.mem_cons.mp hy with hz | hz
        · subst hz; exact absurd hcmp h
        · exact .cons z (ih hz)

/-- Stability of the modelled sort: a pair whose comparator value is `≤ 0`
in input order keeps its relative order, whatever the comparator does on
other pairs. -/
theorem insSort_stable {x y : α} {l : List α} (hsub : [x, y].Sublist l)
    (hcmp : cmp x y ≤ 0) : [x, y].Sublist (insSort cmp l) := by
  induction l with
  | nil => cases hsub
  | cons z zs ih =>
      cases hsub with
      | cons _ h => exact sublist_insCmp cmp z (ih h)
      | cons₂ _ h =>
          exact sublist_insCmp_self cmp hcmp
            ((mem_insSort cmp).mpr (List.singleton_sublist.mp h))

end StableSort

/-- Monadic insertion, faithful to a comparator that can throw. -/
def insCmpE (cmp : JsValue → JsValue → Except JsError Int) (x : JsValue) :
    List JsValue → Except JsError (List JsValue)
  | [] => .ok [x]
  | y :: ys => do
      let c ← cmp x y
      if c ≤ 0 then pure (x :: y :: ys)
      else do pure (y :: (← insCmpE cmp x ys))

/-- Monadic stable sort: the model of `displayedPosts.sort(comparator)`,
propagating any `TypeError` the comparator throws. -/
def insSortE (cmp : JsValue → JsValue → Except JsError Int) :
    List JsValue → Except JsError (List JsValue)
  | [] => .ok []
  | x :: xs => do insCmpE cmp x (← insSortE cmp xs)

/-- The sort step of `updatePosts` (lines 195-200): sort ascending or
descending by date, any other sort key leaves the order unchanged. -/
def jsSortPostsE (order : String) (l : List JsValue) : Except JsError (List JsValue) :=
  if order == "date-asc" then insSortE (dateCmpE true) l
  else if order == "date-desc" then insSortE (dateCmpE false) l
  else .ok l

/-- Pure form of the sort step, agreeing with `jsSortPostsE` on readable
posts. -/
def jsSortPostsP (order : String) (l : List JsValue) : List JsValue :=
  if order == "date-asc" then insSort (dateCmpP true) l
  else if order == "date-desc" then insSort (dateCmpP false) l
  else l

theorem insCmpE_eq_of_canRead {cmpE : JsValue → JsValue → Except JsError Int}
    {cmpP : JsValue → JsValue → Int}
    (hagree : ∀ a b, canRead a = true → canRead b = true → cmpE a b = .ok (cmpP a b))
    {x : JsValue} {l : List JsValue} (hx : canRead x = true)
    (hl : ∀ p ∈ l, canRead p = true) :
    insCmpE cmpE x l = .ok (insCmp cmpP x l) := by
  induction l with
  | nil => rfl
  | cons y ys ih =>
      have hy : canRead y = true := hl y (List.mem_cons_self y ys)
      have hys : ∀ p ∈ ys, canRead p = true := fun p hp => hl p (List.mem_cons_of_mem y hp)
      simp only [insCmpE, hagree x y hx hy, insCmp]
      by_cases h : cmpP x y ≤ 0
      · simp [h, Except.bind]
      · simp [h, Except.bind, ih hys]

theorem insSortE_eq_of_canRead {cmpE : JsValue → JsValue → Except JsError Int}
    {cmpP : JsValue → JsValue → Int}
    (hagree : ∀ a b, canRead a = true → canRead b = true → cmpE a b = .ok (cmpP a b))
    {l : List JsValue} (hl : ∀ p ∈ l, canRead p = true) :
    insSortE cmpE l = .ok (insSort cmpP l) := by
  induction l with
  | nil => rfl
  | cons x xs ih =>
      have hx : canRead x = true := hl x (List.mem_cons_self x xs)
      have hxs : ∀ p ∈ xs, canRead p = true := fun p hp => hl p (List.mem_cons_of_mem x hp)
      have hmem : ∀ p ∈ insSort cmpP xs, canRead p = true :=
        fun p hp => hxs p ((mem_insSort cmpP).mp hp)
      simp only [insSortE, ih hxs, Except.bind]
      exact insCmpE_eq_of_canRead hagree hx hmem

theorem jsSortPostsE_eq_of_canRead {l : List JsValue}
    (hl : ∀ p ∈ l, canRead p = true) (order : String) :
    jsSortPostsE order l = .ok (jsSortPostsP order l) := by
  unfold jsSortPostsE jsSortPostsP
  by_cases h1 : order == "date-asc"
  · simp only [h1, if_true]
    exact insSortE_eq_of_canRead (fun a b ha hb => dateCmpE_eq_of_canRead ha hb true) hl
  · simp only [h1, if_false]
    by_cases h2 : order == "date-desc"
    · simp only [h2, if_true]
      exact insSortE_eq_of_canRead (fun a b ha hb => dateCmpE_eq_of_canRead ha hb false) hl
    · simp [h2]

/-- The script's state variables (`Posts.js` lines 21-25). -/
structure AppState where
  allPosts : List JsValue
  displayedPosts : List JsValue
  allTags : List JsValue
  currentSort : String
  currentTag : String
deriving Repr

/-- `updatePosts` (lines 187-203): filter by the current tag, then sort the
fresh copy by date. A `TypeError` thrown by the filter predicate leaves
`displayedPosts` untouched; one thrown by the sort comparator interrupts
the in-place sort of the already-assigned copy (the partial permutation is
engine-defined; the model keeps the filtered order). Rendering is a DOM
concern outside the model. -/
def updatePostsRun (s : AppState) : AppState × Option JsError :=
  match viewFilter s.allPosts s.currentTag with
  | .error e => (s, some e)
  | .ok fp =>
      match jsSortPostsE s.currentSort fp with
      | .error e => ({ s with displayedPosts := fp }, some e)
      | .ok sorted => ({ s with displayedPosts := sorted }, none)

/-- The sort-button click handlers (lines 208-216): set `currentSort`,
then rerun `updatePosts`. -/
def handleSortClick (order : String) (s : AppState) : AppState × Option JsError :=
  updatePostsRun { s with currentSort := order }

/-- The tag-button click handler (lines 219-235): set `currentTag`, then
rerun `updatePosts`. -/
def handleTagClick (tag : String) (s : AppState) : AppState × Option JsError :=
  updatePostsRun { s with currentTag := tag }

/-- `Set.prototype.add`: append the tag if it is not already present
(JavaScript `Set`s are insertion-ordered and deduplicate by value for
primitives). -/
def addTag (acc : List JsValue) (t : JsValue) : List JsValue :=
  if acc.any (fun x => x == t) then acc else acc ++ [t]

/-- `v.forEach(...)` is only available on arrays; every other receiver
throws a `TypeError`. -/
def jsElems : JsValue → Except JsError (List JsValue)
  | .arr xs => .ok xs
  | _ => .error .typeError

/-- The tag-collection loop of `fetchData` (lines 112-115):
`allPosts.forEach(post => post.tags.forEach(tag => allTags.add(tag)))`.
A post whose `tags` read or `forEach` call throws aborts the loop, keeping
the tags accumulated so far. -/
def collectTagsRun : List JsValue → List JsValue → List JsValue × Option JsError
  | [], acc => (acc, none)
  | p :: ps, acc =>
      match getProp p "tags" with
      | .error e => (acc, some e)
      | .ok tv =>
          match jsElems tv with
          | .error e => (acc, some e)
          | .ok ts => collectTagsRun ps (ts.foldl addTag acc)

/-- `parseJsonData` (lines 48-59): an array is returned as is, anything
else — object, but also any scalar or `null` — is wrapped in a
one-element array. -/
def parseJsonData : JsValue → List JsValue
  | .arr xs => xs
  | v => [v]

/-- A JSON shape that is neither an array nor an object. -/
def isScalar : JsValue → Bool
  | .null => true
  | .bool _ => true
  | .num _ => true
  | .str _ => true
  | _ => false

/-- The state just after `allPosts` is assigned in `fetchData`:
`displayedPosts` still empty, default view state
(`currentSort = "date-desc"`, `currentTag = "all"`, lines 24-25). -/
def initState (posts tags : List JsValue) : AppState :=
  ⟨posts, [], tags, "date-desc", "all"⟩

/-- The tail of `fetchData` after a parser produced `allPosts`
(lines 112-119): collect tags, then — unless the collection threw, in
which case the `catch` shows the error message — clear the message and run
the initial `updatePosts` (whose own `TypeError`, if any, is also caught).
The returned flag is the error status channel (`some` = the catch branch
ran `showMessage(..., 'error')`). -/
def runLoad (posts : List JsValue) : AppState × Option JsError :=
  match collectTagsRun posts [] with
  | (tags, some e) => (initState posts tags, some e)
  | (tags, none) => updatePostsRun (initState posts tags)

/-- A load of a `.json` file whose text `JSON.parse` turned into `v`
(lines 103-105 followed by the shared tail). -/
def loadJsonValue (v : JsValue) : AppState × Option JsError :=
  runLoad (parseJsonData v)

/-- Node of the attribute-free XML document model: an element with a tag
name and children, or a text node. -/
inductive XNode where
  | elem : String → List XNode → XNode
  | text : String → XNode
deriving Repr

/-- Lexer token of the XML model. -/
inductive XTok where
  | otag : String → XTok
  | ctag : String → XTok
  | txt : String → XTok
deriving Repr, BEq

/-- A usable tag name: nonempty and alphabetic (the subset the repository's
documents use; anything else makes the document malformed in this model). -/
def goodName (s : String) : Bool :=
  !s.isEmpty && s.data.all Char.isAlpha

/-- Fuel-indexed XML lexer: markup is `<name>`, `</name>` and text runs;
`none` is a lexical well-formedness failure. Each step consumes at least
one character, so fuel `= length + 1` always suffices. -/
def lexGo : Nat → List Char → Option (List XTok)
  | _, [] => some []
  | 0, _ :: _ => none
  | fuel + 1, '<' :: rest =>
      match rest with
      | '/' :: r2 =>
          let nm : List Char := r2.takeWhile (fun c => c ≠ '>')
          match r2.dropWhile (fun c => c ≠ '>') with
          | '>' :: r3 =>
              if goodName ⟨nm⟩ then
                (lexGo fuel r3).map (fun ts => XTok.ctag ⟨nm⟩ :: ts)
              else none
          | _ => none
      | _ =>
          let nm : List Char := rest.takeWhile (fun c => c ≠ '>')
          match rest.dropWhile (fun c => c ≠ '>') with
          | '>' :: r3 =>
              if goodName ⟨nm⟩ then
                (lexGo fuel r3).map (fun ts => XTok.otag ⟨nm⟩ :: ts)
              else none
          | _ => none
  | fuel + 1, c :: rest =>
      let run : List Char := rest.takeWhile (fun d => d ≠ '<')
      (lexGo fuel (rest.dropWhile (fun d => d ≠ '<'))).map
        (fun ts => XTok.txt ⟨c :: run⟩ :: ts)

/-- Tree builder over a stack of open elements: `none` is a nesting
well-formedness failure (mismatched or unclosed tags). Returns the forest
of root-level nodes. -/
def buildGo : List XTok → List (String × List XNode) → List XNode → Option (List XNode)
  | [], [], acc => some acc.reverse
  | [], _ :: _, _ => none
  | XTok.txt s :: rest, stk, acc => buildGo rest stk (XNode.text s :: acc)
  | XTok.otag nm :: rest, stk, acc => buildGo rest ((nm, acc) :: stk) []
  | XTok.ctag nm :: rest, (nm', parentAcc) :: stk, acc =>
      if nm == nm' then buildGo rest stk (XNode.elem nm acc.reverse :: parentAcc)
      else none
  | XTok.ctag _ :: _, [], _ => none

/-- Whether a root-forest node is an element. -/
def isElemNode : XNode → Bool
  | .elem _ _ => true
  | .text _ => false

/-- Whitespace-only text node (ignorable at the document root). -/
def isBlankText : XNode → Bool
  | .text s => s.data.all Char.isWhitespace
  | .elem _ _ => false

/-- Well-formedness check of the XML model: the text lexes, nests, and has
exactly one root element, any sibling root content being whitespace. -/
def xmlWellFormed (s : String) : Option XNode :=
  match lexGo (s.length + 1) s.data with
  | none => none
  | some toks =>
      match buildGo toks [] [] with
      | none => none
      | some roots =>
          match roots.filter isElemNode with
          | [root] => if (roots.filter (fun n => !isElemNode n)).all isBlankText
                      then some root else none
          | _ => none

/-- `DOMParser.parseFromString(s, "text/xml")` never throws: a document
that is not well-formed XML parses to an error document whose only content
is a `parsererror` element — in particular it contains no `Post` element. -/
def domParseFromString (s : String) : XNode :=
  match xmlWellFormed s with
  | some root => root
  | none => XNode.elem "parsererror" [XNode.text "error on line 1"]

mutual

/-- Preorder traversal: the node itself followed by its descendants
(document order). -/
def descSelf : XNode → List XNode
  | .text s => [.text s]
  | .elem n cs => .elem n cs :: descList cs

/-- Preorder traversal of a forest. -/
def descList : List XNode → List XNode
  | [] => []
  | c :: cs => descSelf c ++ descList cs

end

/-- Does the node's tag name match? -/
def named (tag : String) : XNode → Bool
  | .elem n _ => n == tag
  | .text _ => false

/-- The children of an element (empty for text). -/
def childrenOf : XNode → List XNode
  | .elem _ cs => cs
  | .text _ => []

/-- `document.querySelectorAll(tag)`: every matching element of the
document, in document order (the root element included). -/
def selectDoc (tag : String) (doc : XNode) : List XNode :=
  (descSelf doc).filter (named tag)

/-- `element.querySelectorAll(tag)` / `querySelector`: matching proper
descendants of the element, in document order. -/
def selectBelow (tag : String) (e : XNode) : List XNode :=
  (descList (childrenOf e)).filter (named tag)

/-- `element.querySelector(tag)`: first matching descendant or `null`. -/
def queryFirst (tag : String) (e : XNode) : Option XNode :=
  (selectBelow tag e).head?

mutual

/-- Descendant-combinator selector `anc tgt` scoped to a forest: the
`tgt`-named elements having an `anc`-named proper ancestor inside the
scope, in document order. -/
def selWithAnc (anc tgt : String) (inAnc : Bool) : XNode → List XNode
  | .text _ => []
  | .elem n cs =>
      (if inAnc && n == tgt then [XNode.elem n cs] else [])
        ++ selWithAncList anc tgt (inAnc || n == anc) cs

/-- `selWithAnc` over a forest. -/
def selWithAncList (anc tgt : String) (inAnc : Bool) : List XNode → List XNode
  | [] => []
  | c :: cs => selWithAnc anc tgt inAnc c ++ selWithAncList anc tgt inAnc cs

end

mutual

/-- `node.textContent`: concatenated text of all descendants. -/
def textContent : XNode → String
  | .text s => s
  | .elem _ cs => textContentList cs

/-- `textContent` of a forest. -/
def textContentList : List XNode → String
  | [] => ""
  | c :: cs => textContent c ++ textContentList cs

end

/-- `post.querySelector(tag)?.textContent || ''` (lines 69-71): the empty
string when the element is missing (and also when its text is empty). -/
def childText (tag : String) (e : XNode) : String :=
  match queryFirst tag e with
  | some el => textContent el
  | none => ""

/-- The per-`Post` record built by `parseXmlData` (lines 68-85): `Title`,
`Date`, `Content` default to the empty string; `tags tag` descendants give
the tags array; the first `img image` descendant, if any, gives the image
object with `src`/`alt` defaulting to the empty string, else `img` is
`null`. -/
def mkXmlPost (post : XNode) : JsValue :=
  let img : JsValue :=
    match (selWithAncList "img" "image" false (childrenOf post)).head? with
    | some ie => .obj [("src", .str (childText "src" ie)),
                       ("alt", .str (childText "alt" ie))]
    | none => .null
  .obj [("title", .str (childText "Title" post)),
        ("date", .str (childText "Date" post)),
        ("content", .str (childText "Content" post)),
        ("img", img),
        ("tags", .arr ((selWithAncList "tags" "tag" false (childrenOf post)).map
            (fun t => .str (textContent t))))]

/-- `parseXmlData` (lines 62-89): parse with `DOMParser`, select every
`Post` element of the resulting document, and build one record per post.
It never throws; a malformed document simply contains no `Post` element. -/
def parseXmlData (s : String) : List JsValue :=
  (selectDoc "Post" (domParseFromString s)).map mkXmlPost

/-- A load of an `.xml` file with raw text `s` (line 107 followed by the
shared tail of `fetchData`). -/
def loadXmlText (s : String) : AppState × Option JsError :=
  runLoad (parseXmlData s)

/-- The post has a `tags` array containing the exact string `tag`. -/
def tagHasB (p : JsValue) (tag : String) : Bool :=
  match getPropD p "tags" with
  | .arr ts => ts.any (fun x => x == JsValue.str tag)
  | _ => false

/-- C9: a well-formed JSON array of N post objects yields a Corpus of
exactly those N elements in source document order, and a single JSON
object yields a one-element Corpus wrapping it. -/
theorem c9_json_corpus_shape :
    (∀ xs : List JsValue, parseJsonData (JsValue.arr xs) = xs ∧
      (parseJsonData (JsValue.arr xs)).length = xs.length) ∧
    (∀ fs : List (String × JsValue), parseJsonData (JsValue.obj fs) = [JsValue.obj fs]) :=
  ⟨fun _ => ⟨rfl, rfl⟩, fun _ => rfl⟩

/-- C3 (amended): a `.json` load whose parsed value is a scalar or `null`
does report an error — a `TypeError` thrown while collecting tags, caught
by `fetchData` — but the Corpus is NOT left empty: `parseJsonData` wraps
the value into the one-element corpus `[v]`, which stays published in
`allPosts`. -/
theorem c3_scalar_wrapped_not_rejected (v : JsValue) (h : isScalar v = true) :
    loadJsonValue v = (initState [v] [], some JsError.typeError) ∧
    (initState [v] []).allPosts ≠ [] := by
  constructor
  · cases v <;> simp_all [isScalar] <;> rfl
  · simp [initState]

/-- C3 witness: the amended behaviour at the concrete scalar `5`. -/
theorem c3_scalar_wrapped_not_rejected_witness :
    isScalar (JsValue.num 5) = true ∧
    (loadJsonValue (JsValue.num 5) = (initState [JsValue.num 5] [], some JsError.typeError) ∧
      (initState [JsValue.num 5] []).allPosts ≠ []) :=
  ⟨rfl, c3_scalar_wrapped_not_rejected (JsValue.num 5) rfl⟩

/-- C3 counterexample: loading the bare JSON number `5` leaves a
one-element Corpus `[5]` (not the empty Corpus the claim requires), even
though an error is reported. -/
theorem c3_counterexample :
    (loadJsonValue (JsValue.num 5)).1.allPosts = [JsValue.num 5] ∧
    (loadJsonValue (JsValue.num 5)).1.allPosts ≠ ([] : List JsValue) ∧
    (loadJsonValue (JsValue.num 5)).2 = some JsError.typeError := by
  have h1 : (loadJsonValue (JsValue.num 5)).1.allPosts = [JsValue.num 5] := rfl
  exact ⟨h1, by rw [h1]; simp, rfl⟩

/-- C10: `"all"` is checked before tag membership, so with
`activeTag = "all"` every post passes through — even when a post carries
the literal tag `"all"` — and no value of `activeTag` has the semantics
"select exactly the posts tagged `\x22all\x22`": for every candidate value
there is a corpus where the filter result differs from that subset. -/
theorem c10_all_reserved :
    (∀ posts : List JsValue, viewFilter posts "all" = .ok posts) ∧
    (∀ v : String, ∃ posts r : List JsValue,
      viewFilter posts v = .ok r ∧ r ≠ posts.filter (fun p => tagHasB p "all")) := by
  constructor
  · intro posts; simp [viewFilter]
  · intro v
    by_cases hv : v = "all"
    · subst hv
      refine ⟨[.obj []], [.obj []], by simp [viewFilter], ?_⟩
      simp [tagHasB, getPropD, getProp, lookupField]
    · refine ⟨[.obj [("tags", .arr [.str "all"])]], [], ?_, ?_⟩
      · have hb : (JsValue.str "all" == JsValue.str v) = false := by
          simp only [BEq.beq, beqJs]
          exact beq_eq_false_iff_ne.mpr (Ne.symm hv)
        simp [viewFilter, beq_iff_eq, hv, filterByTag, getProp, lookupField,
          jsIncludes, hb]
      · simp [tagHasB, getPropD, getProp, lookupField]

/-- C2 (amended): a `.xml` load on input that is not well-formed XML does
NOT report any error: `DOMParser` yields an error document, the code never
inspects `parsererror`, so the load completes silently with an empty
Corpus — an outcome identical to that of valid XML containing zero `Post`
elements. -/
theorem c2_malformed_xml_silent (t : String) (h : xmlWellFormed t = none) :
    loadXmlText t = (initState [] [], none) ∧
    loadXmlText t = loadXmlText "<root></root>" := by
  have hdom : domParseFromString t
      = XNode.elem "parsererror" [XNode.text "error on line 1"] := by
    unfold domParseFromString
    rw [h]
  have hp : parseXmlData t = [] := by
    unfold parseXmlData
    rw [hdom]
    rfl
  constructor
  · show runLoad (parseXmlData t) = _
    rw [hp]
    rfl
  · show runLoad (parseXmlData t) = loadXmlText "<root></root>"
    rw [hp]
    rfl

/-- C2 witness: the amended behaviour at the concrete unterminated-tag
input `<Post>`. -/
theorem c2_malformed_xml_silent_witness :
    xmlWellFormed "<Post>" = none ∧
    (loadXmlText "<Post>" = (initState [] [], none) ∧
      loadXmlText "<Post>" = loadXmlText "<root></root>") :=
  ⟨rfl, c2_malformed_xml_silent "<Post>" rfl⟩

/-- C2 counterexample: on the malformed input `<Post>` the load reports no
error (status stays clear), and its outcome is equal to — hence
indistinguishable from — the outcome on the valid zero-`Post` document
`<root></root>`, contradicting the claimed malformed-input error. -/
theorem c2_counterexample :
    xmlWellFormed "<Post>" = none ∧
    (loadXmlText "<Post>").2 = none ∧
    (loadXmlText "<Post>").1.allPosts = [] ∧
    loadXmlText "<Post>" = loadXmlText "<root></root>" :=
  ⟨rfl, rfl, rfl, rfl⟩

/-- C4 (amended): the default-value policy does hold for every XML-parsed
post — `title`/`date`/`content` are always strings and are `""` when the
child element is missing, `tags` is always a (possibly empty) array of
strings, and an image, when present, has string `src`/`alt` that are `""`
when the children are missing. (For JSON there is no shared Normalizer at
all: `parseJsonData` passes raw values through, see the counterexample.) -/
theorem c4_xml_normalizer_defaults (s : String) (p : JsValue)
    (hp : p ∈ parseXmlData s) :
    ∃ e, e ∈ selectDoc "Post" (domParseFromString s) ∧ p = mkXmlPost e ∧
      getPropD p "title" = .str (childText "Title" e) ∧
      getPropD p "content" = .str (childText "Content" e) ∧
      getPropD p "date" = .str (childText "Date" e) ∧
      (queryFirst "Title" e = none → getPropD p "title" = .str "") ∧
      (queryFirst "Content" e = none → getPropD p "content" = .str "") ∧
      (∃ ts : List String, getPropD p "tags" = .arr (ts.map JsValue.str)) ∧
      (getPropD p "img" = .null ∨
        ∃ ie, (selWithAncList "img" "image" false (childrenOf e)).head? = some ie ∧
          getPropD p "img" = .obj [("src", .str (childText "src" ie)),
                                   ("alt", .str (childText "alt" ie))] ∧
          (queryFirst "src" ie = none → childText "src" ie = "") ∧
          (queryFirst "alt" ie = none → childText "alt" ie = "")) := by
  obtain ⟨e, he, hpe⟩ := List.mem_map.mp hp
  subst hpe
  have htitle : getPropD (mkXmlPost e) "title" = .str (childText "Title" e) := by
    simp [mkXmlPost, getPropD, getProp, lookupField]
  have hcontent : getPropD (mkXmlPost e) "content" = .str (childText "Content" e) := by
    simp [mkXmlPost, getPropD, getProp, lookupField]
  have hdate : getPropD (mkXmlPost e) "date" = .str (childText "Date" e) := by
    simp [mkXmlPost, getPropD, getProp, lookupField]
  refine ⟨e, he, rfl, htitle, hcontent, hdate, ?_, ?_, ?_, ?_⟩
  · intro h
    rw [htitle]
    simp [childText, h]
  · intro h
    rw [hcontent]
    simp [childText, h]
  · refine ⟨(selWithAncList "tags" "tag" false (childrenOf e)).map textContent, ?_⟩
    simp [mkXmlPost, getPropD, getProp, lookupField, List.map_map]
  · rcases hh : (selWithAncList "img" "image" false (childrenOf e)).head? with _ | ie
    · left
      simp [mkXmlPost, getPropD, getProp, lookupField, hh]
    · right
      refine ⟨ie, rfl, ?_, fun h => by simp [childText, h], fun h => by simp [childText, h]⟩
      simp [mkXmlPost, getPropD, getProp, lookupField, hh]

/-- C4 witness: the XML defaults at a concrete `Post` missing `Title`,
`Content`, tags and image. -/
theorem c4_xml_normalizer_defaults_witness :
    (JsValue.obj [("title", .str ""), ("date", .str "nope"), ("content", .str ""),
        ("img", .null), ("tags", .arr [])])
      ∈ parseXmlData "<Posts><Post><Date>nope</Date></Post></Posts>" ∧
    (∃ e, e ∈ selectDoc "Post"
        (domParseFromString "<Posts><Post><Date>nope</Date></Post></Posts>") ∧
      (JsValue.obj [("title", .str ""), ("date", .str "nope"), ("content", .str ""),
          ("img", .null), ("tags", .arr [])]) = mkXmlPost e ∧
      getPropD (JsValue.obj [("title", .str ""), ("date", .str "nope"),
          ("content", .str ""), ("img", .null), ("tags", .arr [])]) "title"
        = .str (childText "Title" e) ∧
      getPropD (JsValue.obj [("title", .str ""), ("date", .str "nope"),
          ("content", .str ""), ("img", .null), ("tags", .arr [])]) "content"
        = .str (childText "Content" e) ∧
      getPropD (JsValue.obj [("title", .str ""), ("date", .str "nope"),
          ("content", .str ""), ("img", .null), ("tags", .arr [])]) "date"
        = .str (childText "Date" e) ∧
      (queryFirst "Title" e = none →
        getPropD (JsValue.obj [("title", .str ""), ("date", .str "nope"),
            ("content", .str ""), ("img", .null), ("tags", .arr [])]) "title" = .str "") ∧
      (queryFirst "Content" e = none →
        getPropD (JsValue.obj [("title", .str ""), ("date", .str "nope"),
            ("content", .str ""), ("img", .null), ("tags", .arr [])]) "content" = .str "") ∧
      (∃ ts : List String,
        getPropD (JsValue.obj [("title", .str ""), ("date", .str "nope"),
            ("content", .str ""), ("img", .null), ("tags", .arr [])]) "tags"
          = .arr (ts.map JsValue.str)) ∧
      (getPropD (JsValue.obj [("title", .str ""), ("date", .str "nope"),
          ("content", .str ""), ("img", .null), ("tags", .arr [])]) "img" = .null ∨
        ∃ ie, (selWithAncList "img" "image" false (childrenOf e)).head? = some ie ∧
          getPropD (JsValue.obj [("title", .str ""), ("date", .str "nope"),
              ("content", .str ""), ("img", .null), ("tags", .arr [])]) "img"
            = .obj [("src", .str (childText "src" ie)),
                    ("alt", .str (childText "alt" ie))] ∧
          (queryFirst "src" ie = none → childText "src" ie = "") ∧
          (queryFirst "alt" ie = none → childText "alt" ie = ""))) := by
  have hmem : (JsValue.obj [("title", .str ""), ("date", .str "nope"),
      ("content", .str ""), ("img", .null), ("tags", .arr [])])
      ∈ parseXmlData "<Posts><Post><Date>nope</Date></Post></Posts>" := by
    show _ ∈ [JsValue.obj [("title", .str ""), ("date", .str "nope"),
      ("content", .str ""), ("img", .null), ("tags", .arr [])]]
    exact List.mem_singleton.mpr rfl
  exact ⟨hmem, c4_xml_normalizer_defaults _ _ hmem⟩

/-- C4 counterexample: a successful `.json` load of the object
`{"tags": []}` publishes a Corpus whose only post has NO title at all —
reading `title` yields `undefined`, not the empty string the claimed
default-value policy requires; the JSON path has no Normalizer. -/
theorem c4_counterexample :
    (loadJsonValue (JsValue.obj [("tags", JsValue.arr [])])).2 = none ∧
    (loadJsonValue (JsValue.obj [("tags", JsValue.arr [])])).1.allPosts
      = [JsValue.obj [("tags", JsValue.arr [])]] ∧
    getProp (JsValue.obj [("tags", JsValue.arr [])]) "title" = .ok JsValue.undefined ∧
    JsValue.undefined ≠ JsValue.str "" := by
  refine ⟨rfl, rfl, rfl, by simp⟩

theorem canRead_of_getProp_ok {p : JsValue} {k : String} {v : JsValue}
    (h : getProp p k = .ok v) : canRead p = true := by
  cases p <;> simp_all [getProp, canRead]

theorem filterByTag_eq_of_shape {posts : List JsValue} (tag : String)
    (h : ∀ p ∈ posts, ∃ ts, getProp p "tags" = .ok (.arr ts)) :
    filterByTag posts tag = .ok (posts.filter (fun p => tagHasB p tag)) := by
  induction posts with
  | nil => rfl
  | cons p ps ih =>
      obtain ⟨ts, hts⟩ := h p (List.mem_cons_self p ps)
      have hrest := ih (fun q hq => h q (List.mem_cons_of_mem p hq))
      have htag : tagHasB p tag = ts.any (fun x => x == JsValue.str tag) := by
        simp [tagHasB, getPropD, hts]
      simp only [filterByTag, hts, except_ok_bind, jsIncludes, hrest,
        except_pure_eq_ok, List.filter_cons, htag]

/-- C6: the filter step passes every post through unchanged when
`activeTag = "all"`; otherwise, on a corpus of posts carrying tags arrays,
it retains exactly the posts whose tags contain `activeTag` (exact,
case-sensitive string match), so a tag on exactly K of the N posts gives a
K-element result each containing it, and a tag on zero posts gives the
empty list as a non-error outcome. -/
theorem c6_filter_step (posts : List JsValue) (tag : String)
    (hshape : ∀ p ∈ posts, ∃ ts, getProp p "tags" = .ok (.arr ts)) :
    viewFilter posts "all" = .ok posts ∧
    (tag ≠ "all" →
      viewFilter posts tag = .ok (posts.filter (fun p => tagHasB p tag)) ∧
      (posts.filter (fun p => tagHasB p tag)).length
        = posts.countP (fun p => tagHasB p tag) ∧
      (∀ q ∈ posts.filter (fun p => tagHasB p tag), tagHasB q tag = true) ∧
      ((∀ p ∈ posts, tagHasB p tag = false) →
        posts.filter (fun p => tagHasB p tag) = [])) := by
  refine ⟨by simp [viewFilter], fun hne => ⟨?_, ?_, ?_, ?_⟩⟩
  · rw [viewFilter, if_neg (by simp [hne])]
    exact filterByTag_eq_of_shape tag hshape
  · exact (List.countP_eq_length_filter _ _).symm
  · exact fun q hq => (List.mem_filter.mp hq).2
  · intro hzero
    simp only [List.filter_eq_nil_iff]
    intro a ha
    simp [hzero a ha]

/-- C6 witness: on the two-post corpus (tags `["x"]` and `["y"]`) filtering
by `"x"` keeps exactly the first post, and `"all"` keeps both. -/
theorem c6_filter_step_witness :
    (∀ p ∈ [JsValue.obj [("tags", .arr [.str "x"])],
            JsValue.obj [("tags", .arr [.str "y"])]],
      ∃ ts, getProp p "tags" = .ok (.arr ts)) ∧
    viewFilter [JsValue.obj [("tags", .arr [.str "x"])],
                JsValue.obj [("tags", .arr [.str "y"])]] "all"
      = .ok [JsValue.obj [("tags", .arr [.str "x"])],
             JsValue.obj [("tags", .arr [.str "y"])]] ∧
    viewFilter [JsValue.obj [("tags", .arr [.str "x"])],
                JsValue.obj [("tags", .arr [.str "y"])]] "x"
      = .ok [JsValue.obj [("tags", .arr [.str "x"])]] := by
  have hshape : ∀ p ∈ [JsValue.obj [("tags", .arr [.str "x"])],
      JsValue.obj [("tags", .arr [.str "y"])]],
      ∃ ts, getProp p "tags" = .ok (.arr ts) := by
    intro p hp
    rcases List.mem_cons.mp hp with rfl | hp'
    · exact ⟨[.str "x"], rfl⟩
    · rcases List.mem_cons.mp hp' with rfl | hnil
      · exact ⟨[.str "y"], rfl⟩
      · cases hnil
  have h := c6_filter_step
    [JsValue.obj [("tags", .arr [.str "x"])], JsValue.obj [("tags", .arr [.str "y"])]]
    "x" hshape
  refine ⟨hshape, h.1, ?_⟩
  rw [(h.2 (by decide)).1]
  rfl

/-- C5 (amended): the View Engine recomputation is total — no filter or
sort error — on every state whose posts all carry an array-valued `tags`
field (in particular on every corpus `parseXmlData` can produce); but not
on every parser-producible corpus, see the counterexample. -/
theorem c5_total_on_tagged (s : AppState)
    (h : ∀ p ∈ s.allPosts, ∃ ts, getProp p "tags" = .ok (.arr ts)) :
    (updatePostsRun s).2 = none := by
  have hread : ∀ p ∈ s.allPosts, canRead p = true := by
    intro p hp
    obtain ⟨ts, hts⟩ := h p hp
    exact canRead_of_getProp_ok hts
  have hsort : ∀ fp : List JsValue, (∀ p ∈ fp, canRead p = true) →
      ∃ out, jsSortPostsE s.currentSort fp = .ok out :=
    fun fp hfp => ⟨_, jsSortPostsE_eq_of_canRead hfp s.currentSort⟩
  unfold updatePostsRun
  by_cases hall : s.currentTag = "all"
  · rw [viewFilter, if_pos (by simp [hall])]
    obtain ⟨out, hout⟩ := hsort s.allPosts hread
    simp [hout]
  · rw [viewFilter, if_neg (by simp [hall]), filterByTag_eq_of_shape _ h]
    obtain ⟨out, hout⟩ := hsort (s.allPosts.filter (fun p => tagHasB p s.currentTag))
      (fun p hp => hread p (List.mem_filter.mp hp).1)
    simp [hout]

/-- C5 witness: totality at a concrete one-post tagged corpus with an
active tag filter. -/
theorem c5_total_on_tagged_witness :
    (∀ p ∈ (AppState.mk [JsValue.obj [("tags", .arr [.str "x"])]] [] [] "date-desc" "x").allPosts,
      ∃ ts, getProp p "tags" = .ok (.arr ts)) ∧
    (updatePostsRun
      (AppState.mk [JsValue.obj [("tags", .arr [.str "x"])]] [] [] "date-desc" "x")).2 = none := by
  have hshape : ∀ p ∈ (AppState.mk [JsValue.obj [("tags", .arr [.str "x"])]]
      [] [] "date-desc" "x").allPosts, ∃ ts, getProp p "tags" = .ok (.arr ts) := by
    intro p hp
    rcases List.mem_singleton.mp hp with rfl
    exact ⟨[.str "x"], rfl⟩
  exact ⟨hshape, c5_total_on_tagged _ hshape⟩

/-- C5 counterexample: the one-post corpus `[{"title": "x"}]` — producible
by `parseJsonData` — makes the filter step throw a `TypeError` (reading
`.includes` of the `undefined` tags) as soon as `activeTag` is a real tag,
so the View Engine recomputation does raise. -/
theorem c5_counterexample :
    parseJsonData (JsValue.obj [("title", JsValue.str "x")])
      = [JsValue.obj [("title", JsValue.str "x")]] ∧
    (updatePostsRun
      (AppState.mk [JsValue.obj [("title", JsValue.str "x")]] [] [] "date-desc" "y")).2
      = some JsError.typeError :=
  ⟨rfl, rfl⟩

theorem updatePostsRun_frame (s : AppState) :
    ((updatePostsRun s).1).allPosts = s.allPosts ∧
    ((updatePostsRun s).1).allTags = s.allTags ∧
    ((updatePostsRun s).1).currentSort = s.currentSort ∧
    ((updatePostsRun s).1).currentTag = s.currentTag := by
  cases hf : viewFilter s.allPosts s.currentTag with
  | error e => simp [updatePostsRun, hf]
  | ok fp =>
      cases hs : jsSortPostsE s.currentSort fp with
      | error e => simp [updatePostsRun, hf, hs]
      | ok sorted => simp [updatePostsRun, hf, hs]

/-- C8: the View Engine recomputation never mutates the Corpus (nor the
tag set nor the view state) — it writes only `displayedPosts`, built from
a copy — and it is deterministic: rerunning it on the state it produced
(same Corpus, same ViewState) reproduces the same `displayedPosts` and the
same error status. -/
theorem c8_view_engine_pure (s : AppState) :
    ((updatePostsRun s).1).allPosts = s.allPosts ∧
    ((updatePostsRun s).1).allTags = s.allTags ∧
    ((updatePostsRun s).1).currentSort = s.currentSort ∧
    ((updatePostsRun s).1).currentTag = s.currentTag ∧
    ((updatePostsRun ((updatePostsRun s).1)).1).displayedPosts
      = ((updatePostsRun s).1).displayedPosts ∧
    (updatePostsRun ((updatePostsRun s).1)).2 = (updatePostsRun s).2 := by
  cases hf : viewFilter s.allPosts s.currentTag with
  | error e =>
      have h : updatePostsRun s = (s, some e) := by simp [updatePostsRun, hf]
      simp [h]
  | ok fp =>
      cases hs : jsSortPostsE s.currentSort fp with
      | error e =>
          have h : updatePostsRun s = ({ s with displayedPosts := fp }, some e) := by
            simp [updatePostsRun, hf, hs]
          have h2 : updatePostsRun { s with displayedPosts := fp }
              = ({ s with displayedPosts := fp }, some e) := by
            simp [updatePostsRun, hf, hs]
          simp [h, h2]
      | ok sorted =>
          have h : updatePostsRun s = ({ s with displayedPosts := sorted }, none) := by
            simp [updatePostsRun, hf, hs]
          have h2 : updatePostsRun { s with displayedPosts := sorted }
              = ({ s with displayedPosts := sorted }, none) := by
            simp [updatePostsRun, hf, hs]
          simp [h, h2]

theorem mem_addTag (acc : List JsValue) (x t : JsValue) :
    t ∈ addTag acc x ↔ t ∈ acc ∨ t = x := by
  unfold addTag
  by_cases h : acc.any (fun y => y == x)
  · have hx : x ∈ acc := by
      obtain ⟨y, hy, hyx⟩ := List.any_eq_true.mp h
      exact (eq_of_beq hyx) ▸ hy
    simp only [h, if_true]
    constructor
    · exact Or.inl
    · rintro (ht | rfl)
      · exact ht
      · exact hx
  · simp [h]

theorem mem_foldl_addTag (ts : List JsValue) :
    ∀ (acc : List JsValue) (t : JsValue),
      t ∈ ts.foldl addTag acc ↔ t ∈ acc ∨ t ∈ ts := by
  induction ts with
  | nil => simp
  | cons x xs ih =>
      intro acc t
      simp only [List.foldl_cons, ih, mem_addTag, List.mem_cons]
      tauto

theorem collectTagsRun_ok_mem (posts : List JsValue) :
    ∀ (acc tags : List JsValue), collectTagsRun posts acc = (tags, none) →
      ∀ t, t ∈ tags ↔ t ∈ acc ∨
        ∃ p ∈ posts, ∃ ts, getProp p "tags" = .ok (.arr ts) ∧ t ∈ ts := by
  induction posts with
  | nil =>
      intro acc tags h t
      obtain rfl : acc = tags := congrArg Prod.fst h
      simp
  | cons p ps ih =>
      intro acc tags h t
      rw [collectTagsRun] at h
      split at h
      · simp at h
      · next tv hgp =>
          split at h
          · simp at h
          · next ts hel =>
          have harr : tv = .arr ts := by
            cases tv <;> simp_all [jsElems]
          subst harr
          rw [ih _ _ h t, mem_foldl_addTag]
          constructor
          · rintro ((ht | ht) | ⟨q, hq, us, hus, htu⟩)
            · exact Or.inl ht
            · exact Or.inr ⟨p, List.mem_cons_self p ps, ts, hgp, ht⟩
            · exact Or.inr ⟨q, List.mem_cons_of_mem p hq, us, hus, htu⟩
          · rintro (ht | ⟨q, hq, us, hus, htu⟩)
            · exact Or.inl (Or.inl ht)
            · rcases List.mem_cons.mp hq with rfl | hq'
              · obtain rfl : us = ts := by
                  have := hgp.symm.trans hus
                  simpa using this.symm
                exact Or.inl (Or.inr htu)
              · exact Or.inr ⟨q, hq', us, hus, htu⟩

/-- C7: after a load, the tag set is exactly the union of every post's
tags (duplicates ignored); an empty corpus yields an empty tag set; it is
computed from the full corpus once per load by `fetchData` (never from the
filtered view), and neither a sort-selection nor a tag-selection signal —
which only rerun `updatePosts` — ever changes it. -/
theorem c7_tagset_invariant (posts tags : List JsValue)
    (hok : collectTagsRun posts [] = (tags, none)) :
    (∀ t, t ∈ tags ↔ ∃ p ∈ posts, ∃ ts, getProp p "tags" = .ok (.arr ts) ∧ t ∈ ts) ∧
    collectTagsRun [] [] = (([] : List JsValue), none) ∧
    (∀ (s : AppState) (o : String), ((handleSortClick o s).1).allTags = s.allTags) ∧
    (∀ (s : AppState) (tg : String), ((handleTagClick tg s).1).allTags = s.allTags) ∧
    (∀ ps : List JsValue, ((runLoad ps).1).allTags = (collectTagsRun ps []).1) := by
  refine ⟨fun t => ?_, rfl, fun s o => ?_, fun s tg => ?_, fun ps => ?_⟩
  · rw [collectTagsRun_ok_mem posts [] tags hok t]
    simp
  · exact (updatePostsRun_frame { s with currentSort := o }).2.1
  · exact (updatePostsRun_frame { s with currentTag := tg }).2.1
  · unfold runLoad
    rcases hc : collectTagsRun ps [] with ⟨ts, err⟩
    cases err with
    | none =>
        have := (updatePostsRun_frame (initState ps ts)).2.1
        simpa [initState] using this
    | some e => simp [initState]

/-- C7 witness: the invariant at the concrete one-post corpus
`[{"tags": ["x"]}]`, whose collected tag set is `["x"]`. -/
theorem c7_tagset_invariant_witness :
    collectTagsRun [JsValue.obj [("tags", .arr [.str "x"])]] []
      = ([JsValue.str "x"], none) ∧
    (JsValue.str "x" ∈ [JsValue.str "x"] ↔
      ∃ p ∈ [JsValue.obj [("tags", .arr [.str "x"])]],
        ∃ ts, getProp p "tags" = .ok (.arr ts) ∧ JsValue.str "x" ∈ ts) ∧
    ((handleSortClick "date-asc"
        (AppState.mk [] [] [JsValue.str "x"] "date-desc" "all")).1).allTags
      = [JsValue.str "x"] := by
  refine ⟨rfl, ?_, ?_⟩
  · exact (c7_tagset_invariant [JsValue.obj [("tags", .arr [.str "x"])]]
      [JsValue.str "x"] rfl).1 (JsValue.str "x")
  · exact (c7_tagset_invariant [JsValue.obj [("tags", .arr [.str "x"])]]
      [JsValue.str "x"] rfl).2.2.1 (AppState.mk [] [] [JsValue.str "x"] "date-desc" "all")
      "date-asc"

theorem sublist_pair_of_get {α : Type} {l : List α} {i j : Nat} {a b : α}
    (hij : i < j) (ha : l.get? i = some a) (hb : l.get? j = some b) :
    [a, b].Sublist l := by
  obtain ⟨hjl, hgetb⟩ := List.get?_eq_some.mp hb
  have hdrop : l.drop j = b :: l.drop (j + 1) := by
    have hx : l[j] = b := by simpa using hgetb
    rw [List.drop_eq_getElem_cons hjl, hx]
  have hmem : a ∈ l.take j := by
    have h' : (l.take j).get? i = some a := by rw [List.get?_take hij, ha]
    exact List.get?_mem h'
  have hs : ([a] ++ [b]).Sublist (l.take j ++ (b :: l.drop (j + 1))) :=
    List.Sublist.append (List.singleton_sublist.mpr hmem)
      ((List.nil_sublist _).cons₂ b)
  rw [← hdrop, List.take_append_drop] at hs
  exact hs

/-- The tie condition of the sort-step claim: both dates equal and valid,
or either an invalid-date sentinel. -/
def dateTie (a b : JsValue) : Prop :=
  (∃ x, postDate a = some x ∧ postDate b = some x) ∨
    postDate a = none ∨ postDate b = none

theorem scomp_none_left (y : Option Int) : scomp none y = 0 := by
  cases y <;> rfl

theorem scomp_none_right (x : Option Int) : scomp x none = 0 := by
  cases x <;> rfl

theorem dateCmpP_eq_zero_of_tie {a b : JsValue} (h : dateTie a b) (asc : Bool) :
    dateCmpP asc a b = 0 := by
  have hs : scomp (postDate a) (postDate b) = 0 ∧
      scomp (postDate b) (postDate a) = 0 := by
    rcases h with ⟨x, hx, hy⟩ | h | h
    · simp [scomp, hx, hy]
    · rw [h]
      exact ⟨scomp_none_left _, scomp_none_right _⟩
    · rw [h]
      exact ⟨scomp_none_right _, scomp_none_left _⟩
  cases asc <;> simp [dateCmpP, hs.1, hs.2]

theorem insCmp_map {α β : Type} (cmp : β → β → Int) (f : α → β) (x : α) :
    ∀ l : List α, (insCmp (fun u v => cmp (f u) (f v)) x l).map f
      = insCmp cmp (f x) (l.map f) := by
  intro l
  induction l with
  | nil => rfl
  | cons y ys ih =>
      by_cases h : cmp (f x) (f y) ≤ 0 <;> simp [insCmp, h, ih]

theorem insSort_map {α β : Type} (cmp : β → β → Int) (f : α → β) :
    ∀ l : List α, (insSort (fun u v => cmp (f u) (f v)) l).map f
      = insSort cmp (l.map f) := by
  intro l
  induction l with
  | nil => rfl
  | cons x xs ih => simp [insSort, insCmp_map, ih]

/-- The sort step run on index-tagged posts (the comparator reads only the
post component, so untagging recovers the actual sorted output; the tags
make the stability statement unambiguous under duplicate posts). -/
def sortTagged (order : String) (l : List JsValue) : List (Nat × JsValue) :=
  if order == "date-asc" then insSort (fun u v => dateCmpP true u.2 v.2) l.enum
  else if order == "date-desc" then insSort (fun u v => dateCmpP false u.2 v.2) l.enum
  else l.enum

theorem enum_map_snd_eq {α : Type} (l : List α) : l.enum.map Prod.snd = l :=
  List.enumFrom_map_snd 0 l

theorem sortTagged_map (order : String) (l : List JsValue) :
    (sortTagged order l).map Prod.snd = jsSortPostsP order l := by
  unfold sortTagged jsSortPostsP
  by_cases h1 : order == "date-asc"
  · rw [if_pos h1, if_pos h1, insSort_map (dateCmpP true) Prod.snd l.enum,
      enum_map_snd_eq]
  · rw [if_neg h1, if_neg h1]
    by_cases h2 : order == "date-desc"
    · rw [if_pos h2, if_pos h2, insSort_map (dateCmpP false) Prod.snd l.enum,
        enum_map_snd_eq]
    · rw [if_neg h2, if_neg h2]
      exact enum_map_snd_eq l

/-- C1: the sort step is stable on ties and keeps invalid dates pinned —
for any two corpus positions `i < j` whose posts have exactly equal dates
or where either date is the invalid sentinel (the comparator returns 0 in
all those cases, per the ECMAScript rule mapping a NaN comparator result
to +0), the index-tagged sort keeps occurrence `i` before occurrence `j`,
under the ascending and the descending order alike; and untagging the
tagged sort is exactly the sort step's output on any corpus of readable
posts. -/
theorem c1_sort_stable_ties (order : String) (l : List JsValue) (i j : Nat)
    (a b : JsValue) (horder : order = "date-asc" ∨ order = "date-desc")
    (hij : i < j) (ha : l.get? i = some a) (hb : l.get? j = some b)
    (htie : dateTie a b) (hsafe : ∀ p ∈ l, canRead p = true) :
    [(i, a), (j, b)].Sublist (sortTagged order l) ∧
    jsSortPostsE order l = .ok ((sortTagged order l).map Prod.snd) := by
  have hea : l.enum.get? i = some (i, a) := by
    rw [List.get?_enum, ha]
    rfl
  have heb : l.enum.get? j = some (j, b) := by
    rw [List.get?_enum, hb]
    rfl
  have hsub : [(i, a), (j, b)].Sublist l.enum := sublist_pair_of_get hij hea heb
  constructor
  · unfold sortTagged
    rcases horder with rfl | rfl
    · rw [if_pos (show ("date-asc" == "date-asc") = true from rfl)]
      exact insSort_stable _ hsub (by simp [dateCmpP_eq_zero_of_tie htie])
    · rw [if_neg (show ¬("date-desc" == "date-asc") = true from by decide),
        if_pos (show ("date-desc" == "date-desc") = true from rfl)]
      exact insSort_stable _ hsub (by simp [dateCmpP_eq_zero_of_tie htie])
  · rw [jsSortPostsE_eq_of_canRead hsafe, sortTagged_map]

/-- C1 witness: on the corpus `[2024-01-02, invalid, 2024-01-01]` the
valid/invalid pair at positions 0 < 1 keeps its order under the ascending
sort, and untagging gives the sort step's actual output. -/
theorem c1_sort_stable_ties_witness :
    dateTie (JsValue.obj [("date", .str "2024-01-02")])
      (JsValue.obj [("date", .str "nope")]) ∧
    ([((0 : Nat), JsValue.obj [("date", .str "2024-01-02")]),
      ((1 : Nat), JsValue.obj [("date", .str "nope")])].Sublist
        (sortTagged "date-asc"
          [JsValue.obj [("date", .str "2024-01-02")],
           JsValue.obj [("date", .str "nope")],
           JsValue.obj [("date", .str "2024-01-01")]]) ∧
      jsSortPostsE "date-asc"
          [JsValue.obj [("date", .str "2024-01-02")],
           JsValue.obj [("date", .str "nope")],
           JsValue.obj [("date", .str "2024-01-01")]]
        = .ok ((sortTagged "date-asc"
            [JsValue.obj [("date", .str "2024-01-02")],
             JsValue.obj [("date", .str "nope")],
             JsValue.obj [("date", .str "2024-01-01")]]).map Prod.snd)) := by
  have htie : dateTie (JsValue.obj [("date", .str "2024-01-02")])
      (JsValue.obj [("date", .str "nope")]) := Or.inr (Or.inr rfl)
  have hsafe : ∀ p ∈ [JsValue.obj [("date", .str "2024-01-02")],
      JsValue.obj [("date", .str "nope")],
      JsValue.obj [("date", .str "2024-01-01")]], canRead p = true := by
    intro p hp
    rcases List.mem_cons.mp hp with rfl | hp1
    · rfl
    rcases List.mem_cons.mp hp1 with rfl | hp2
    · rfl
    rcases List.mem_cons.mp hp2 with rfl | hp3
    · rfl
    · cases hp3
  exact ⟨htie, c1_sort_stable_ties "date-asc" _ 0 1 _ _ (Or.inl rfl) (by decide)
    rfl rfl htie hsafe⟩

/-- C6 counterexample: on the corpus `[{"title": "t"}]` the tag `"x"` is
present on zero posts, yet filtering by `"x"` throws a `TypeError` instead
of returning the empty DisplayList as a valid non-error outcome — the
literal "for every Corpus" reading of the filter-step contract fails on
posts without a tags array. -/
theorem c6_counterexample :
    viewFilter [JsValue.obj [("title", JsValue.str "t")]] "x"
      = .error JsError.typeError ∧
    (∀ p ∈ [JsValue.obj [("title", JsValue.str "t")]], tagHasB p "x" = false) := by
  refine ⟨rfl, ?_⟩
  intro p hp
  rcases List.mem_singleton.mp hp with rfl
  rfl
